import Mathlib

/-!
Verification development for the sky table storage engine (`db/table.go`).

The Go source is shallowly embedded: pure functions become Lean functions,
stateful code becomes explicit state passing, Go machine integers become
`Nat`/`Int` with explicit wrap-around where it matters, and fallible code
returns `Option`/`Except`.  External collaborators that the spec declares
out of scope (the bolt KV store, the statsd telemetry sink, the msgpack and
JSON codecs, the sharding hash) are modelled at their interfaces; every
such modelling choice is recorded in the doc comment of the definition.
-/

namespace SkyDB

/-! ## Byte strings and their lexicographic order

Bolt keys and encoded records are byte slices.  A byte slice is modelled as
a `List Nat` whose entries are below 256 where it matters. -/

/-- A Go byte slice, modelled as a list of byte values. -/
abbrev Bytes := List Nat

/-- Embedding of `bytes.Compare(a, b) < 0`: strict lexicographic order on
byte slices, a proper prefix being smaller. -/
def bytesLt : Bytes → Bytes → Bool
  | [], [] => false
  | [], _ :: _ => true
  | _ :: _, [] => false
  | a :: as, b :: bs => if a < b then true else if b < a then false else bytesLt as bs

/-! ## The expiration sweeper (`Table.SweepNextBatch`, table.go lines 104-164)

The relevant slice of a table's bolt file is the contents of its shard
buckets: each shard bucket maps object keys to per-object sub-buckets,
and each object sub-bucket maps event timestamp keys to event records.
Bolt stores keys in ascending byte order, so a bucket is modelled as the
ascending list of its keys; the event record payloads play no role in the
sweeper and are omitted. -/

/-- A per-object sub-bucket: the object's key in its shard bucket and the
ascending list of its event keys (the event values are irrelevant to the
sweeper). -/
structure Obj where
  key : Bytes
  events : List Bytes
deriving DecidableEq

/-- A shard bucket: its objects in ascending key order. -/
abbrev Shard := List Obj

/-- `SweepBatchSize` (table.go line 25): bound on objects swept or events
deleted in a single expiration sweep. -/
def SweepBatchSize : Nat := 1000

/-- Errors of the `db` package that the embedded code can produce.
`noDeletes` embeds the `NoDeletes` sentinel of table.go lines 32-35. -/
inductive DBError where
  | noDeletes
  | objectIDRequired
deriving DecidableEq

/-- The `NoDeletes` sentinel value (table.go line 35). -/
def NoDeletes : DBError := DBError.noDeletes

/-- Tally of the `statsd` counter calls made on the expiration metrics
while a sweep batch runs.  The statsd sink is external; the embedding
records, per metric name, how many `statsd.Count` calls were issued
(statsd calls are fire-and-forget and are not part of the bolt
transaction, so they survive a rollback). -/
structure StatsdLog where
  rolloverCalls : Nat
  sweepCalls : Nat
  eventsCalls : Nat
  objectsCalls : Nat
deriving DecidableEq

/-- The empty statsd tally. -/
def StatsdLog.empty : StatsdLog := ⟨0, 0, 0, 0⟩

/-- In-memory table state, restricted to the fields that the sweeper and
the lifecycle claims touch (table.go lines 76-99).  `db` is `some ()` when
the bolt handle is non-nil; `shards` is the current committed contents of
the shard buckets, indexed by shard number. -/
structure TableM where
  db : Option Unit
  path : String
  name : String
  shardCount : Nat
  shards : List Shard
  currentShard : Nat
  currentObject : Option Bytes
deriving DecidableEq

/-- Embedding of `Table.opened` (table.go line 351): the bolt handle is
non-nil. -/
def TableM.opened (t : TableM) : Bool := t.db.isSome

/-- Bolt cursor positioning used on resume (table.go lines 120-121):
`sc.Seek(cur)` places the cursor on the smallest key `≥ cur`, then
`sc.Next()` yields the following key.  On the ascending object list this
returns the first key strictly greater than `cur` when `cur` is still
present, and the second such key when `cur` was deleted inside this
transaction (Seek then lands past `cur` already). -/
def cursorSeekNext (os : Shard) (cur : Bytes) : Option Bytes :=
  let gts := os.filter (fun o => bytesLt cur o.key)
  if os.any (fun o => o.key == cur) then (gts.head?).map Obj.key
  else (gts.get? 1).map Obj.key

/-- The object key produced by the cursor positioning step of one sweep
iteration (table.go lines 116-122): `First()` of the shard when
`currentObject` is nil, otherwise seek-and-next past `currentObject`. -/
def cursorKey (os : Shard) : Option Bytes → Option Bytes
  | none => (os.head?).map Obj.key
  | some cur => cursorSeekNext os cur

/-- Mutable state of the sweep transaction closure: the shard buckets as
mutated so far, the sweeper cursor fields, the three counters declared in
the `SweepNextBatch` signature, and the statsd tally. -/
structure SweepTxState where
  shards : List Shard
  currentShard : Nat
  currentObject : Option Bytes
  swept : Nat
  events : Nat
  objects : Nat
  log : StatsdLog
deriving DecidableEq

/-- One iteration of the outer sweep loop body (table.go lines 115-148)
for a table with `n` shards and expiration bound `bound`.  If the cursor
is exhausted the shard rolls over (lines 124-132): `currentShard`
advances modulo `n`, `currentObject` resets, one `expiration.rollover`
count is emitted, and the loop increment still adds one swept object.
Otherwise the cursor key becomes the new `currentObject`, the strict
prefix of the object's events below `bound` is deleted (lines 140-143),
and an object left empty is deleted in turn (lines 144-147). -/
def sweepIter (n : Nat) (bound : Bytes) (s : SweepTxState) : SweepTxState :=
  let os := s.shards.getD s.currentShard []
  match cursorKey os s.currentObject with
  | none =>
      { s with
        currentShard := (s.currentShard + 1) % n
        currentObject := none
        swept := s.swept + 1
        log := { s.log with rolloverCalls := s.log.rolloverCalls + 1 } }
  | some k =>
      let ob := (os.find? (fun o => o.key == k)).getD ⟨k, []⟩
      let deleted := ob.events.takeWhile (fun e => bytesLt e bound)
      let remaining := ob.events.dropWhile (fun e => bytesLt e bound)
      let os' :=
        if remaining.isEmpty then os.filter (fun o => !(o.key == k))
        else os.map (fun o => if o.key == k then { o with events := remaining } else o)
      { s with
        shards := s.shards.set s.currentShard os'
        currentObject := some k
        swept := s.swept + 1
        events := s.events + deleted.length
        objects := s.objects + (if remaining.isEmpty then 1 else 0) }

/-- The outer sweep loop (table.go line 115):
`for ; swept < SweepBatchSize && events < SweepBatchSize; swept += 1`.
The fuel argument counts the iterations still allowed by the
`swept < SweepBatchSize` conjunct (each iteration increments `swept` by
exactly one, so starting from `swept = 0` with fuel `SweepBatchSize` the
fuel runs out exactly when `swept` reaches `SweepBatchSize`); the
`events < SweepBatchSize` conjunct is re-checked before every
iteration. -/
def sweepGo (n : Nat) (bound : Bytes) : Nat → SweepTxState → SweepTxState
  | 0, s => s
  | fuel + 1, s =>
      if s.events < SweepBatchSize then sweepGo n bound fuel (sweepIter n bound s) else s

/-- The full run of the sweep loop inside the transaction: the loop of
table.go line 115 started on the table's current state, with all three
counters at zero and fuel `SweepBatchSize` standing for the
`swept < SweepBatchSize` conjunct. -/
def sweepLoopRun (t : TableM) (bound : Bytes) : SweepTxState :=
  sweepGo t.shardCount bound SweepBatchSize
    ⟨t.shards, t.currentShard, t.currentObject, 0, 0, 0, StatsdLog.empty⟩

/-- The transaction closure passed to `t.Update` by `SweepNextBatch`
(table.go lines 110-162): run the loop, emit `expiration.sweep` (line
149, before the empty-batch check), and either return the `NoDeletes`
sentinel when nothing was deleted (lines 152-154) or emit the
`expiration.events`/`expiration.objects` counters for the positive
counts and return nil (lines 155-161). -/
def sweepTxClosure (t : TableM) (bound : Bytes) : SweepTxState × Option DBError :=
  let s1 := sweepLoopRun t bound
  let s2 := { s1 with log := { s1.log with sweepCalls := s1.log.sweepCalls + 1 } }
  if s2.events = 0 ∧ s2.objects = 0 then (s2, some NoDeletes)
  else
    let s3 :=
      if 0 < s2.events then
        { s2 with log := { s2.log with eventsCalls := s2.log.eventsCalls + 1 } }
      else s2
    let s4 :=
      if 0 < s3.objects then
        { s3 with log := { s3.log with objectsCalls := s3.log.objectsCalls + 1 } }
      else s3
    (s4, none)

/-- Result of a `SweepNextBatch` call: the three returned counts, the
table state after the call (bolt contents committed or rolled back, the
sweeper cursor fields as left by the loop), and the statsd tally. -/
structure SweepResult where
  swept : Nat
  events : Nat
  objects : Nat
  table : TableM
  log : StatsdLog
deriving DecidableEq

/-- Embedding of `Table.SweepNextBatch` (table.go lines 104-164).  A table
that is not open returns immediately (lines 107-109).  Otherwise the
closure runs under `t.Update`; when it returns the `NoDeletes` sentinel
the bolt transaction rolls back, so the shard buckets keep their old
contents, while the cursor fields `currentShard`/`currentObject` live on
the Go struct and keep their new values either way.  `Update`'s error
result is discarded (line 110: the call's value is not used), so the
sentinel never escapes and the counts are returned normally.  `bound` is
the precomputed expiration key `ShiftTimeBytes(now - expiration)` (line
111); wall-clock time is external, so the bound is a parameter. -/
def SweepNextBatch (t : TableM) (bound : Bytes) : SweepResult :=
  if t.opened = false then ⟨0, 0, 0, t, StatsdLog.empty⟩
  else
    let s := (sweepTxClosure t bound).1
    let err := (sweepTxClosure t bound).2
    let shards' := if err.isSome then t.shards else s.shards
    ⟨s.swept, s.events, s.objects,
      { t with shards := shards', currentShard := s.currentShard,
               currentObject := s.currentObject },
      s.log⟩

/-! ## The event codec (`rawEvent.marshal` / `rawEvent.unmarshal` /
`rawEvent.normalize`, table.go lines 516-557)

The timestamp prefix is the 8-byte big-endian two's-complement `int64`
written by `binary.Write` (line 524); that part is embedded from the
source.  The payload is the msgpack encoding of `map[int]interface{}`
produced by the external ugorji codec with `RawToString` set, which the
spec keeps out of scope; it is modelled from the spec as a
self-delimiting map encoding with integer keys and tagged values of the
supported kinds (signed integer, floating-point, boolean, string, null),
where an integer is encoded by its value so that width distinctions
vanish on the wire. -/

/-- Big-endian base-256 digits of `n`, `w` bytes wide. -/
def natToBE : Nat → Nat → List Nat
  | 0, _ => []
  | w + 1, n => natToBE w (n / 256) ++ [n % 256]

/-- Value of a big-endian byte string. -/
def beToNat (bs : List Nat) : Nat := bs.foldl (fun a b => a * 256 + b) 0

/-- The 8 big-endian bytes of `v` as a two's-complement `int64`, as
written by `binary.Write(&buf, binary.BigEndian, e.timestamp)` (table.go
line 524). -/
def int64ToBytes (v : Int) : List Nat := natToBE 8 (v % (2 ^ 64 : Int)).toNat

/-- The `int64` read back from 8 big-endian bytes, as by `binary.Read`
(table.go line 538). -/
def bytesToInt64 (bs : List Nat) : Int :=
  let n := beToNat bs
  if n < 2 ^ 63 then (n : Int) else (n : Int) - 2 ^ 64

/-- A canonical runtime value, the image of `promote`: 64-bit signed
integer, 64-bit float (kept as its bit pattern; float arithmetic never
happens here), boolean, string, or null. -/
inductive DataValue where
  | int (v : Int)
  | float (bits : Nat)
  | bool (b : Bool)
  | str (s : String)
  | null
deriving DecidableEq

/-- A value as it sits in a raw event's `data` map before normalization:
the supported kinds, with the integer width variants that the decoder may
produce and `promote` widens. -/
inductive RawDataValue where
  | int8 (v : Int)
  | int16 (v : Int)
  | int32 (v : Int)
  | int64 (v : Int)
  | float64 (bits : Nat)
  | boolv (b : Bool)
  | strv (s : String)
  | null
deriving DecidableEq

/-- Modelled from the spec: the `promote` helper lives elsewhere in the
repository (not under src/); per spec §4.1 and §9 it maps every decoded
value onto the canonical runtime type for its kind — any integer width to
64-bit signed, any floating width to 64-bit — and keeps booleans, strings
and null as they are. -/
def promote : RawDataValue → DataValue
  | RawDataValue.int8 v => DataValue.int v
  | RawDataValue.int16 v => DataValue.int v
  | RawDataValue.int32 v => DataValue.int v
  | RawDataValue.int64 v => DataValue.int v
  | RawDataValue.float64 bits => DataValue.float bits
  | RawDataValue.boolv b => DataValue.bool b
  | RawDataValue.strv s => DataValue.str s
  | RawDataValue.null => DataValue.null

/-- Four big-endian bytes of one character's code point. -/
def encodeChar (c : Char) : List Nat := natToBE 4 c.toNat

/-- Modelled from the spec: the self-delimiting encoding of one tagged
value in the external msgpack codec.  Tags: 0 null, 1 boolean, 2 signed
integer (encoded by value, collapsing widths), 3 float (bit pattern),
4 string (length-prefixed code points; `RawToString` makes byte and text
strings indistinguishable after decoding, so one string form suffices). -/
def encodeValue : RawDataValue → List Nat
  | RawDataValue.int8 v => 2 :: int64ToBytes v
  | RawDataValue.int16 v => 2 :: int64ToBytes v
  | RawDataValue.int32 v => 2 :: int64ToBytes v
  | RawDataValue.int64 v => 2 :: int64ToBytes v
  | RawDataValue.float64 bits => 3 :: natToBE 8 bits
  | RawDataValue.boolv b => 1 :: [if b then 1 else 0]
  | RawDataValue.strv s => 4 :: (natToBE 8 s.data.length ++ (s.data.map encodeChar).flatten)
  | RawDataValue.null => [0]

/-- Modelled from the spec: the map encoding of the event payload — an
entry count followed by the key/value pairs, keys being `int64`s. -/
def encodeData (data : List (Int × RawDataValue)) : List Nat :=
  natToBE 8 data.length ++ (data.map (fun kv => int64ToBytes kv.1 ++ encodeValue kv.2)).flatten

/-- An internal raw event (table.go lines 516-519): a timestamp and a
propertyID-to-value map, modelled as an association list in the map's
iteration order. -/
structure rawEvent where
  timestamp : Int
  data : List (Int × RawDataValue)

/-- Embedding of `rawEvent.marshal` (table.go lines 522-533): the 8-byte
big-endian timestamp followed by the encoded data map. -/
def rawEvent.marshal (e : rawEvent) : List Nat :=
  int64ToBytes e.timestamp ++ encodeData e.data

/-- A decoded-and-normalized event: what `rawEvent.unmarshal` leaves in
the receiver. -/
structure eventRec where
  timestamp : Int
  data : List (Int × DataValue)
deriving DecidableEq

/-- Embedding of `rawEvent.normalize` (table.go lines 553-557): promote
every value of the data map. -/
def rawEvent.normalize (e : rawEvent) : eventRec :=
  ⟨e.timestamp, e.data.map (fun kv => (kv.1, promote kv.2))⟩

/-- Take `k` bytes off the front of the input, failing on short input. -/
def readBytes (k : Nat) (l : List Nat) : Option (List Nat × List Nat) :=
  if k ≤ l.length then some (l.take k, l.drop k) else none

/-- Decode `count` characters of a string payload. -/
def decodeChars : Nat → List Nat → Option (List Char × List Nat)
  | 0, l => some ([], l)
  | count + 1, l =>
      match readBytes 4 l with
      | none => none
      | some (cb, l1) =>
          match decodeChars count l1 with
          | none => none
          | some (cs, l2) => some (Char.ofNat (beToNat cb) :: cs, l2)

/-- Modelled from the spec: decoding one tagged value; the inverse of
`encodeValue`, producing the canonical runtime kinds the external decoder
yields (`RawToString` turns byte strings into text strings).  Malformed
input fails, embedding the codec's `EncodingError`. -/
def decodeValue (l : List Nat) : Option (DataValue × List Nat) :=
  match l with
  | 0 :: rest => some (DataValue.null, rest)
  | 1 :: b :: rest => some (DataValue.bool (b != 0), rest)
  | 2 :: rest =>
      match readBytes 8 rest with
      | none => none
      | some (vb, r) => some (DataValue.int (bytesToInt64 vb), r)
  | 3 :: rest =>
      match readBytes 8 rest with
      | none => none
      | some (fb, r) => some (DataValue.float (beToNat fb), r)
  | 4 :: rest =>
      match readBytes 8 rest with
      | none => none
      | some (lb, r) =>
          match decodeChars (beToNat lb) r with
          | none => none
          | some (cs, r2) => some (DataValue.str ⟨cs⟩, r2)
  | _ => none

/-- Decode `count` map entries. -/
def decodeEntries : Nat → List Nat → Option (List (Int × DataValue) × List Nat)
  | 0, l => some ([], l)
  | count + 1, l =>
      match readBytes 8 l with
      | none => none
      | some (kb, r) =>
          match decodeValue r with
          | none => none
          | some (v, r2) =>
              match decodeEntries count r2 with
              | none => none
              | some (rest, r3) => some ((bytesToInt64 kb, v) :: rest, r3)

/-- Modelled from the spec: decoding the data map — the inverse of
`encodeData`. -/
def decodeData (l : List Nat) : Option (List (Int × DataValue) × List Nat) :=
  match readBytes 8 l with
  | none => none
  | some (cb, r) => decodeEntries (beToNat cb) r

/-- Embedding of `rawEvent.unmarshal` (table.go lines 536-550): read the
8-byte big-endian timestamp, decode the data map, normalize.  The decoded
values are already canonical, so normalization is absorbed into
`decodeValue`. -/
def unmarshalEvent (b : List Nat) : Option eventRec :=
  match readBytes 8 b with
  | none => none
  | some (tsb, r) =>
      match decodeData r with
      | none => none
      | some (d, _) => some ⟨bytesToInt64 tsb, d⟩

/-- Well-formedness of one raw value: each integer width carries a value
of its range, a float fits in 64 bits, a string's length fits in the
length field. -/
def RawDataValue.wf : RawDataValue → Prop
  | RawDataValue.int8 v => -(2 ^ 7 : Int) ≤ v ∧ v < 2 ^ 7
  | RawDataValue.int16 v => -(2 ^ 15 : Int) ≤ v ∧ v < 2 ^ 15
  | RawDataValue.int32 v => -(2 ^ 31 : Int) ≤ v ∧ v < 2 ^ 31
  | RawDataValue.int64 v => -(2 ^ 63 : Int) ≤ v ∧ v < 2 ^ 63
  | RawDataValue.float64 bits => bits < 2 ^ 64
  | RawDataValue.boolv _ => True
  | RawDataValue.strv s => s.data.length < 2 ^ 64
  | RawDataValue.null => True

instance : DecidablePred RawDataValue.wf := fun v =>
  match v with
  | RawDataValue.int8 _ => inferInstanceAs (Decidable (_ ∧ _))
  | RawDataValue.int16 _ => inferInstanceAs (Decidable (_ ∧ _))
  | RawDataValue.int32 _ => inferInstanceAs (Decidable (_ ∧ _))
  | RawDataValue.int64 _ => inferInstanceAs (Decidable (_ ∧ _))
  | RawDataValue.float64 _ => inferInstanceAs (Decidable (_ < _))
  | RawDataValue.boolv _ => inferInstanceAs (Decidable True)
  | RawDataValue.strv _ => inferInstanceAs (Decidable (_ < _))
  | RawDataValue.null => inferInstanceAs (Decidable True)

/-- Well-formedness of a raw event: timestamp and keys are `int64`s, the
map is small enough for its count field, every value is well-formed. -/
def rawEvent.wf (e : rawEvent) : Prop :=
  -(2 ^ 63 : Int) ≤ e.timestamp ∧ e.timestamp < 2 ^ 63 ∧ e.data.length < 2 ^ 64 ∧
    ∀ kv ∈ e.data, (-(2 ^ 63 : Int) ≤ kv.1 ∧ kv.1 < 2 ^ 63) ∧ kv.2.wf

instance (e : rawEvent) : Decidable e.wf :=
  inferInstanceAs (Decidable (_ ∧ _ ∧ _ ∧ ∀ kv ∈ e.data, _))

/-! ## Schema / meta (`Table.marshal` / `Table.unmarshal`, table.go lines
393-422)

The `Property` type and the JSON codec live outside src/: `Property` is
modelled from the spec's data model (§3), and the byte-level JSON round
trip of `encoding/json` on the flat `tableRawMessage` struct is taken as
lossless, so encode/decode are modelled at the document level. -/

/-- Modelled from the spec: a property's data type, one of
factor/string/integer/float/boolean (§3). -/
inductive DataType where
  | factor
  | string
  | integer
  | float
  | boolean
deriving DecidableEq

/-- Modelled from the spec: a property
`{id: int, name: string, dataType, transient: bool}` (§3); the back
reference to the table is a non-owning handle and is not part of the
encoded schema. -/
structure Property where
  id : Int
  name : String
  dataType : DataType
  transient : Bool
deriving DecidableEq

/-- The wire document of the schema (table.go lines 501-507). -/
structure tableRawMessage where
  name : String
  shardCount : Int
  maxPermanentID : Int
  maxTransientID : Int
  properties : List Property
deriving DecidableEq

/-- The in-memory schema state that `marshal`/`unmarshal` exchange
(table.go lines 82-91): the four scalar fields and the two property
indexes, `properties` keyed by name and `propertiesByID` keyed by ID.
A Go map is modelled as an association list; `marshal` iterates it in
the list's order (Go iterates in unspecified order, which only permutes
the encoded property list). -/
structure TableSchema where
  name : String
  shardCount : Int
  maxPermanentID : Int
  maxTransientID : Int
  properties : List (String × Property)
  propertiesByID : List (Int × Property)
deriving DecidableEq

/-- Embedding of `Table.marshal` (table.go lines 394-400): collect the
properties map's values into the wire document. -/
def TableSchema.marshal (t : TableSchema) : tableRawMessage :=
  ⟨t.name, t.shardCount, t.maxPermanentID, t.maxTransientID, t.properties.map (fun kv => kv.2)⟩

/-- Embedding of `Table.unmarshal` (table.go lines 403-422): copy the
scalar fields and rebuild both property indexes from the decoded list. -/
def TableSchema.unmarshal (msg : tableRawMessage) : TableSchema :=
  ⟨msg.name, msg.shardCount, msg.maxPermanentID, msg.maxTransientID,
    msg.properties.map (fun p => (p.name, p)),
    msg.properties.map (fun p => (p.id, p))⟩

/-- Lookup in the name index (`t.properties[name]`). -/
def lookupByName (props : List (String × Property)) (k : String) : Option Property :=
  (props.find? (fun kv => kv.1 == k)).map (fun kv => kv.2)

/-- Lookup in the ID index (`t.propertiesByID[id]`). -/
def lookupByID (props : List (Int × Property)) (k : Int) : Option Property :=
  (props.find? (fun kv => kv.1 == k)).map (fun kv => kv.2)

/-! ## Sharding (`Table.shardIndex`, table.go lines 439-442) -/

/-- Modelled from the spec: `hash.Local`, the external sharding hash
(out of scope per §1, used as `int(hash.Local(id)) % t.shardCount`).
The spec specifies only that the shard is `hash(id) mod shardCount`, a
valid bucket index, so the hash is modelled as a deterministic
nonnegative `int64`: an FNV-1a-style fold over the id's characters,
reduced below `2^63`. -/
def hashLocal (s : String) : Nat :=
  (s.data.foldl (fun h c => ((h ^^^ c.toNat) * 1099511628211) % (2 ^ 64)) 14695981039346656037)
    % (2 ^ 63)

/-- Embedding of `Table.shardIndex` (table.go lines 440-442):
`int(hash.Local(id)) % t.shardCount`; with a nonnegative hash Go's `%`
agrees with `Nat` mod. -/
def TableM.shardIndex (t : TableM) (id : String) : Nat :=
  hashLocal id % t.shardCount

/-! ## Transaction wrapper telemetry (`Table.Update` / `Table.ddEmitStats`,
table.go lines 375-381 and 452-479)

Bolt is external: a write transaction is abstracted by its outcome (nil
or an error) and by the bolt statistics snapshot the database reports
once it has finished. -/

/-- The bolt `TxStats` fields read by `ddEmitStats`; modelled from the
spec's storage-statistics delta (§4.4). -/
structure TxStats where
  pageCount : Int
  pageAlloc : Int
  cursorCount : Int
  nodeCount : Int
  nodeDeref : Int
  rebalance : Int
  rebalanceTime : Int
  split : Int
  spill : Int
  spillTime : Int
  write : Int
  writeTime : Int
deriving DecidableEq

/-- The bolt `Stats` fields read by `ddEmitStats`. -/
structure BoltStats where
  freePageN : Int
  pendingPageN : Int
  freeAlloc : Int
  freelistInuse : Int
  txN : Int
  openTxN : Int
  txStats : TxStats
deriving DecidableEq

/-- Modelled from the spec: bolt's `Stats.Sub`, the delta of storage
statistics between two snapshots (§4.4), taken componentwise. -/
def BoltStats.sub (a b : BoltStats) : BoltStats :=
  ⟨a.freePageN - b.freePageN, a.pendingPageN - b.pendingPageN, a.freeAlloc - b.freeAlloc,
    a.freelistInuse - b.freelistInuse, a.txN - b.txN, a.openTxN - b.openTxN,
    ⟨a.txStats.pageCount - b.txStats.pageCount, a.txStats.pageAlloc - b.txStats.pageAlloc,
      a.txStats.cursorCount - b.txStats.cursorCount, a.txStats.nodeCount - b.txStats.nodeCount,
      a.txStats.nodeDeref - b.txStats.nodeDeref, a.txStats.rebalance - b.txStats.rebalance,
      a.txStats.rebalanceTime - b.txStats.rebalanceTime, a.txStats.split - b.txStats.split,
      a.txStats.spill - b.txStats.spill, a.txStats.spillTime - b.txStats.spillTime,
      a.txStats.write - b.txStats.write, a.txStats.writeTime - b.txStats.writeTime⟩⟩

/-- One telemetry emission.  A histogram divides two `int64` deltas in
floating point; the pair of operands stands in for the quotient, floats
being out of a shallow embedding's reach. -/
inductive Metric where
  | gauge (name : String) (value : Int) (tags : List String)
  | count (name : String) (value : Int) (tags : List String)
  | histogram (name : String) (num den : Int) (tags : List String)
deriving DecidableEq

/-- The telemetry-relevant slice of a table (table.go lines 82-98): its
name, the memoized DataDog tags, and the cached previous bolt stats
snapshot. -/
structure TableTele where
  name : String
  ddTagsCache : Option (List String)
  boltStats : BoltStats
deriving DecidableEq

/-- Embedding of `Table.ddTags` (table.go lines 444-450): memoize
`["table:" + name]` on first use. -/
def TableTele.ddTags (t : TableTele) : List String × TableTele :=
  match t.ddTagsCache with
  | some tags => (tags, t)
  | none =>
      let tags := ["table:" ++ t.name]
      (tags, { t with ddTagsCache := some tags })

/-- The emission list of `ddEmitStats` (table.go lines 458-478) for a
given stats delta, in source order.  Line 461 of the source emits
`stats.FreeAlloc` under `bolt.pages.freelist.inuse`; the embedding
reproduces that as it is. -/
def ddEmitList (stats : BoltStats) (tags : List String) : List Metric :=
  [Metric.gauge "bolt.pages.free" stats.freePageN tags,
   Metric.gauge "bolt.pages.pending" stats.pendingPageN tags,
   Metric.gauge "bolt.pages.free.alloc" stats.freeAlloc tags,
   Metric.gauge "bolt.pages.freelist.inuse" stats.freeAlloc tags,
   Metric.count "bolt.txn.total" stats.txN tags,
   Metric.gauge "bolt.txn.open" stats.openTxN tags,
   Metric.count "bolt.txn.page.count" stats.txStats.pageCount tags,
   Metric.count "bolt.txn.page.alloc" stats.txStats.pageAlloc tags,
   Metric.count "bolt.txn.cursor.count" stats.txStats.cursorCount tags,
   Metric.count "bolt.txn.node.count" stats.txStats.nodeCount tags,
   Metric.count "bolt.txn.node.deref" stats.txStats.nodeDeref tags,
   Metric.count "bolt.txn.node.rebalance.count" stats.txStats.rebalance tags,
   Metric.count "bolt.txn.node.rebalance.time" stats.txStats.rebalanceTime tags,
   Metric.histogram "bolt.txn.node.rebalance.period" stats.txStats.rebalanceTime
     stats.txStats.rebalance tags,
   Metric.count "bolt.txn.node.split" stats.txStats.split tags,
   Metric.count "bolt.txn.node.spill.count" stats.txStats.spill tags,
   Metric.count "bolt.txn.node.spill.time" stats.txStats.spillTime tags,
   Metric.histogram "bolt.txn.node.spill.period" stats.txStats.spillTime
     stats.txStats.spill tags,
   Metric.count "bolt.txn.write.count" stats.txStats.write tags,
   Metric.count "bolt.txn.write.time" stats.txStats.writeTime tags,
   Metric.histogram "bolt.txn.write.period" stats.txStats.writeTime
     stats.txStats.write tags]

/-- Embedding of `Table.ddEmitStats` (table.go lines 452-479): take the
fresh snapshot reported by bolt, emit the delta against the cached one,
and replace the cache. -/
def TableTele.ddEmitStats (t : TableTele) (fresh : BoltStats) : TableTele × List Metric :=
  let stats := fresh.sub t.boltStats
  let (tags, t1) := t.ddTags
  ({ t1 with boltStats := fresh }, ddEmitList stats tags)

/-- Embedding of `Table.Update` (table.go lines 375-381).  Bolt is
external: the write transaction is abstracted by its outcome `txErr`
(nil on commit, the error that forced the rollback otherwise) and by the
bolt stats snapshot `fresh` after the transaction.  `ddEmitStats` runs
unconditionally after `db.Update` returns, and the outcome is passed
through. -/
def TableTele.Update (t : TableTele) (txErr : Option String) (fresh : BoltStats) :
    Option String × TableTele × List Metric :=
  let (t1, ms) := t.ddEmitStats fresh
  (txErr, t1, ms)

/-! ## Opening a table (`Table.open`, table.go lines 268-334) -/

/-- Outcome of the external `bolt.Open` call: opened, lock-acquisition
timeout, or another failure. -/
inductive BoltOpenResult where
  | ok
  | timeout
  | failure (msg : String)
deriving DecidableEq

/-- Lifecycle errors of opening a table.  The source wraps bolt's error
as `fmt.Errorf("table open: %s", err)`; the spec (§5, §7) classifies the
wrapped acquisition-timeout error as the `TableBusy` kind, which the
embedding makes explicit in the constructor. -/
inductive OpenError where
  | tableBusy (msg : String)
  | other (msg : String)
deriving DecidableEq

/-- The acquisition timeout passed to `bolt.Open` (table.go line 274):
`1 * time.Second`, in nanoseconds. -/
def DBOpenTimeout : Nat := 1000000000

/-- Embedding of `Table.open` (table.go lines 268-281): a no-op when the
handle exists, otherwise `bolt.Open(t.path, 0600, &bolt.Options{Timeout:
1 * time.Second})`.  Bolt is external and enters as the `boltOpen`
environment, called with the path and the timeout; a timeout becomes the
wrapped `TableBusy` error, any other failure the wrapped generic error.
The schema initialization that follows a successful open (lines 283-333)
is outside this claim's scope and is modelled as succeeding. -/
def TableM.openTable (t : TableM) (boltOpen : String → Nat → BoltOpenResult) :
    Except OpenError TableM :=
  if t.db.isSome then Except.ok t
  else
    match boltOpen t.path DBOpenTimeout with
    | BoltOpenResult.ok => Except.ok { t with db := some () }
    | BoltOpenResult.timeout => Except.error (OpenError.tableBusy "table open: timeout")
    | BoltOpenResult.failure msg => Except.error (OpenError.other ("table open: " ++ msg))

/-! ## Sweeper lemmas -/

/-- Every member of `l.getD i []` lies in some member list of `l`. -/
lemma mem_of_mem_getD {α : Type} {l : List (List α)} {i : Nat} {a : α}
    (h : a ∈ l.getD i []) : ∃ os ∈ l, a ∈ os := by
  rw [List.getD_eq_getElem?_getD] at h
  rcases h' : l[i]? with _ | os
  · rw [h'] at h
    simp at h
  · rw [h'] at h
    exact ⟨os, List.getElem?_mem h', h⟩

/-- On a table whose shard buckets are all empty, `getD` returns an empty
bucket at every index. -/
lemma getD_eq_nil_of_allEmpty {shards : List Shard}
    (h : ∀ os ∈ shards, os = []) (i : Nat) : shards.getD i [] = [] := by
  rw [List.getD_eq_getElem?_getD]
  rcases h' : shards[i]? with _ | os
  · rfl
  · exact h os (List.getElem?_mem h')

/-- The cursor of an empty shard bucket is exhausted from any position. -/
lemma cursorKey_nil (cur : Option Bytes) : cursorKey [] cur = none := by
  cases cur <;> simp [cursorKey, cursorSeekNext]

/-- Every iteration of the sweep loop increments `swept` by exactly one
(the loop's post statement runs on the rollover path too, via
`continue`). -/
lemma sweepIter_swept (n : Nat) (bound : Bytes) (s : SweepTxState) :
    (sweepIter n bound s).swept = s.swept + 1 := by
  simp only [sweepIter]
  split <;> rfl

/-- A sweep iteration on a table whose shard buckets are all empty is a
pure rollover: the cursor advances and one rollover count is emitted,
while the store and the event/object counters are untouched. -/
lemma sweepIter_allEmpty (n : Nat) (bound : Bytes) (s : SweepTxState)
    (h : ∀ os ∈ s.shards, os = []) :
    sweepIter n bound s =
      { s with currentShard := (s.currentShard + 1) % n, currentObject := none,
               swept := s.swept + 1,
               log := { s.log with rolloverCalls := s.log.rolloverCalls + 1 } } := by
  simp only [sweepIter, getD_eq_nil_of_allEmpty h, cursorKey_nil]

/-- Running the sweep loop over entirely empty shard buckets performs
`fuel` rollovers: `swept` grows by exactly `fuel` while the counters, the
store and the other statsd tallies are unchanged. -/
lemma sweepGo_allEmpty (n : Nat) (bound : Bytes) (fuel : Nat) (s : SweepTxState)
    (h : ∀ os ∈ s.shards, os = []) (he : s.events < SweepBatchSize) :
    (sweepGo n bound fuel s).swept = s.swept + fuel ∧
    (sweepGo n bound fuel s).events = s.events ∧
    (sweepGo n bound fuel s).objects = s.objects ∧
    (sweepGo n bound fuel s).shards = s.shards ∧
    (sweepGo n bound fuel s).log.rolloverCalls = s.log.rolloverCalls + fuel := by
  induction fuel generalizing s with
  | zero => exact ⟨rfl, rfl, rfl, rfl, rfl⟩
  | succ f ih =>
      rw [sweepGo, if_pos he]
      have e1 : (sweepIter n bound s).swept = s.swept + 1 := by
        rw [sweepIter_allEmpty n bound s h]
      have e2 : (sweepIter n bound s).events = s.events := by
        rw [sweepIter_allEmpty n bound s h]
      have e3 : (sweepIter n bound s).objects = s.objects := by
        rw [sweepIter_allEmpty n bound s h]
      have e4 : (sweepIter n bound s).shards = s.shards := by
        rw [sweepIter_allEmpty n bound s h]
      have e5 : (sweepIter n bound s).log.rolloverCalls = s.log.rolloverCalls + 1 := by
        rw [sweepIter_allEmpty n bound s h]
      obtain ⟨h1, h2, h3, h4, h5⟩ :=
        ih (sweepIter n bound s) (by rw [e4]; exact h) (by rw [e2]; exact he)
      exact ⟨by rw [h1, e1]; omega, by rw [h2, e2], by rw [h3, e3], by rw [h4, e4],
        by rw [h5, e5]; omega⟩

/-- The sweep loop never emits on the sweep/events/objects counters; those
calls happen after the loop. -/
lemma sweepGo_log_const (n : Nat) (bound : Bytes) (fuel : Nat) (s : SweepTxState) :
    (sweepGo n bound fuel s).log.sweepCalls = s.log.sweepCalls ∧
    (sweepGo n bound fuel s).log.eventsCalls = s.log.eventsCalls ∧
    (sweepGo n bound fuel s).log.objectsCalls = s.log.objectsCalls := by
  induction fuel generalizing s with
  | zero => exact ⟨rfl, rfl, rfl⟩
  | succ f ih =>
      rw [sweepGo]
      by_cases he : s.events < SweepBatchSize
      · rw [if_pos he]
        obtain ⟨h1, h2, h3⟩ := ih (sweepIter n bound s)
        rw [h1, h2, h3]
        simp only [sweepIter]
        split <;> exact ⟨rfl, rfl, rfl⟩
      · rw [if_neg he]
        exact ⟨rfl, rfl, rfl⟩

/-- An iteration keeps `currentShard` below the shard count when it was
below it before (the rollover path reduces modulo the count, the object
path leaves it alone). -/
lemma sweepIter_currentShard_lt (n : Nat) (bound : Bytes) (s : SweepTxState)
    (hn : 0 < n) (h : s.currentShard < n) :
    (sweepIter n bound s).currentShard < n := by
  simp only [sweepIter]
  split
  · exact Nat.mod_lt _ hn
  · exact h

/-- The sweep loop keeps `currentShard` below the shard count. -/
lemma sweepGo_currentShard_lt (n : Nat) (bound : Bytes) (fuel : Nat) (s : SweepTxState)
    (hn : 0 < n) (h : s.currentShard < n) :
    (sweepGo n bound fuel s).currentShard < n := by
  induction fuel generalizing s with
  | zero => exact h
  | succ f ih =>
      rw [sweepGo]
      by_cases he : s.events < SweepBatchSize
      · rw [if_pos he]
        exact ih _ (sweepIter_currentShard_lt n bound s hn h)
      · rw [if_neg he]
        exact h

/-- The statsd counters emitted by the sweep loop itself are only
rollovers: the loop run leaves the sweep/events/objects tallies at
zero. -/
lemma sweepLoopRun_log (t : TableM) (bound : Bytes) :
    (sweepLoopRun t bound).log.sweepCalls = 0 ∧
    (sweepLoopRun t bound).log.eventsCalls = 0 ∧
    (sweepLoopRun t bound).log.objectsCalls = 0 := by
  unfold sweepLoopRun
  exact sweepGo_log_const _ _ _ _

/-- A loop run over entirely empty shard buckets: `SweepBatchSize`
rollovers, nothing deleted, store untouched. -/
lemma sweepLoopRun_allEmpty (t : TableM) (bound : Bytes)
    (h : ∀ os ∈ t.shards, os = []) :
    (sweepLoopRun t bound).swept = SweepBatchSize ∧
    (sweepLoopRun t bound).events = 0 ∧
    (sweepLoopRun t bound).objects = 0 ∧
    (sweepLoopRun t bound).shards = t.shards ∧
    (sweepLoopRun t bound).log.rolloverCalls = SweepBatchSize := by
  unfold sweepLoopRun
  have he0 : (⟨t.shards, t.currentShard, t.currentObject, 0, 0, 0,
      StatsdLog.empty⟩ : SweepTxState).events < SweepBatchSize := by
    show (0 : Nat) < SweepBatchSize
    decide
  have h0 := sweepGo_allEmpty t.shardCount bound SweepBatchSize
    ⟨t.shards, t.currentShard, t.currentObject, 0, 0, 0, StatsdLog.empty⟩ h he0
  simpa using h0

/-- The batch closure on an empty batch: the `expiration.sweep` counter
is still tallied, then the `NoDeletes` sentinel is returned. -/
lemma sweepTxClosure_abort (t : TableM) (bound : Bytes)
    (he : (sweepLoopRun t bound).events = 0) (ho : (sweepLoopRun t bound).objects = 0) :
    sweepTxClosure t bound =
      ({ sweepLoopRun t bound with
          log := { (sweepLoopRun t bound).log with
                    sweepCalls := (sweepLoopRun t bound).log.sweepCalls + 1 } },
        some NoDeletes) := by
  simp only [sweepTxClosure]
  rw [if_pos (show _ ∧ _ from ⟨he, ho⟩)]

/-- The batch closure on a non-empty batch: no sentinel, counts passed
through, and one events/objects counter call for each positive count. -/
lemma sweepTxClosure_commit (t : TableM) (bound : Bytes)
    (h : ¬((sweepLoopRun t bound).events = 0 ∧ (sweepLoopRun t bound).objects = 0)) :
    (sweepTxClosure t bound).2 = none ∧
    (sweepTxClosure t bound).1.swept = (sweepLoopRun t bound).swept ∧
    (sweepTxClosure t bound).1.events = (sweepLoopRun t bound).events ∧
    (sweepTxClosure t bound).1.objects = (sweepLoopRun t bound).objects ∧
    (sweepTxClosure t bound).1.shards = (sweepLoopRun t bound).shards ∧
    (sweepTxClosure t bound).1.currentShard = (sweepLoopRun t bound).currentShard ∧
    (sweepTxClosure t bound).1.currentObject = (sweepLoopRun t bound).currentObject ∧
    (sweepTxClosure t bound).1.log.sweepCalls = (sweepLoopRun t bound).log.sweepCalls + 1 ∧
    (sweepTxClosure t bound).1.log.eventsCalls =
      (sweepLoopRun t bound).log.eventsCalls +
        (if 0 < (sweepLoopRun t bound).events then 1 else 0) ∧
    (sweepTxClosure t bound).1.log.objectsCalls =
      (sweepLoopRun t bound).log.objectsCalls +
        (if 0 < (sweepLoopRun t bound).objects then 1 else 0) ∧
    (sweepTxClosure t bound).1.log.rolloverCalls = (sweepLoopRun t bound).log.rolloverCalls := by
  simp only [sweepTxClosure]
  rw [if_neg h]
  by_cases h1 : 0 < (sweepLoopRun t bound).events <;>
    by_cases h2 : 0 < (sweepLoopRun t bound).objects <;>
      simp [h1, h2]

/-- On an open table `SweepNextBatch` reports the closure's counts and
log, adopts the closure's cursor fields, and keeps the old shard
contents exactly when the closure returned an error (rollback). -/
lemma sweepNextBatch_opened (t : TableM) (bound : Bytes) (h : t.opened = true) :
    (SweepNextBatch t bound).swept = (sweepTxClosure t bound).1.swept ∧
    (SweepNextBatch t bound).events = (sweepTxClosure t bound).1.events ∧
    (SweepNextBatch t bound).objects = (sweepTxClosure t bound).1.objects ∧
    (SweepNextBatch t bound).log = (sweepTxClosure t bound).1.log ∧
    (SweepNextBatch t bound).table.currentShard = (sweepTxClosure t bound).1.currentShard ∧
    (SweepNextBatch t bound).table.currentObject = (sweepTxClosure t bound).1.currentObject ∧
    (SweepNextBatch t bound).table.shards =
      (if (sweepTxClosure t bound).2.isSome then t.shards
       else (sweepTxClosure t bound).1.shards) := by
  simp [SweepNextBatch, h]

/-! ## Claim theorems: the sweeper -/

/-- C10: calling `SweepNextBatch` on a table that is not open returns
`(0, 0, 0)` immediately, signals nothing, and leaves the table — in
particular the sweep state `currentShard` and `currentObject` —
untouched, with no telemetry emitted. -/
theorem sweepNextBatch_not_open_noop (t : TableM) (bound : Bytes)
    (h : t.opened = false) :
    SweepNextBatch t bound = ⟨0, 0, 0, t, StatsdLog.empty⟩ := by
  simp [SweepNextBatch, h]

/-- Witness for C10 at a concrete closed table. -/
theorem sweepNextBatch_not_open_noop_witness :
    SweepNextBatch ⟨none, "p", "users", 4, [[], []], 2, some [7]⟩ [9] =
      ⟨0, 0, 0, ⟨none, "p", "users", 4, [[], []], 2, some [7]⟩, StatsdLog.empty⟩ :=
  sweepNextBatch_not_open_noop ⟨none, "p", "users", 4, [[], []], 2, some [7]⟩ [9] rfl

/-- C2: a sweep batch in which no events and no objects were deleted
returns the internal `NoDeletes` sentinel from the transaction closure,
so the write transaction rolls back (the shard buckets keep their old
contents); the sentinel does not escape: `SweepNextBatch` still returns
normally with its counts, the deleted counts being zero. -/
theorem sweep_empty_batch_abort (t : TableM) (bound : Bytes)
    (hopen : t.opened = true)
    (he : (sweepLoopRun t bound).events = 0)
    (ho : (sweepLoopRun t bound).objects = 0) :
    (sweepTxClosure t bound).2 = some NoDeletes ∧
    (SweepNextBatch t bound).table.shards = t.shards ∧
    (SweepNextBatch t bound).swept = (sweepLoopRun t bound).swept ∧
    (SweepNextBatch t bound).events = 0 ∧
    (SweepNextBatch t bound).objects = 0 := by
  have hcl := sweepTxClosure_abort t bound he ho
  obtain ⟨n1, n2, n3, n4, n5, n6, n7⟩ := sweepNextBatch_opened t bound hopen
  refine ⟨by rw [hcl], ?_, ?_, ?_, ?_⟩
  · rw [n7, hcl]
    simp
  · rw [n1, hcl]
  · rw [n2, hcl]
    exact he
  · rw [n3, hcl]
    exact ho

/-- Witness for C2: a concrete open table with one empty shard; the
batch deletes nothing, aborts with the sentinel, and still returns its
counts. -/
theorem sweep_empty_batch_abort_witness :
    (sweepTxClosure ⟨some (), "p", "users", 1, [[]], 0, none⟩ []).2 = some NoDeletes ∧
    (SweepNextBatch ⟨some (), "p", "users", 1, [[]], 0, none⟩ []).table.shards = [[]] ∧
    (SweepNextBatch ⟨some (), "p", "users", 1, [[]], 0, none⟩ []).swept =
      (sweepLoopRun ⟨some (), "p", "users", 1, [[]], 0, none⟩ []).swept ∧
    (SweepNextBatch ⟨some (), "p", "users", 1, [[]], 0, none⟩ []).events = 0 ∧
    (SweepNextBatch ⟨some (), "p", "users", 1, [[]], 0, none⟩ []).objects = 0 :=
  sweep_empty_batch_abort ⟨some (), "p", "users", 1, [[]], 0, none⟩ [] rfl
    (sweepLoopRun_allEmpty ⟨some (), "p", "users", 1, [[]], 0, none⟩ []
      (by intro os h; simpa using h)).2.1
    (sweepLoopRun_allEmpty ⟨some (), "p", "users", 1, [[]], 0, none⟩ []
      (by intro os h; simpa using h)).2.2.1

/-- C3 as stated is false: the `expiration.sweep` counter is emitted at
table.go line 149, before the empty-batch check, so a batch that aborts
with the `NoDeletes` sentinel still emits it.  Concretely, on an open
table with a single empty shard the batch deletes nothing and returns
the sentinel, yet one `expiration.sweep` count is issued. -/
theorem sweep_counter_on_abort_counterexample :
    (sweepTxClosure ⟨some (), "p", "users", 1, [[]], 0, none⟩ []).2 = some NoDeletes ∧
    (SweepNextBatch ⟨some (), "p", "users", 1, [[]], 0, none⟩ []).events = 0 ∧
    (SweepNextBatch ⟨some (), "p", "users", 1, [[]], 0, none⟩ []).objects = 0 ∧
    (SweepNextBatch ⟨some (), "p", "users", 1, [[]], 0, none⟩ []).log.sweepCalls = 1 := by
  have hemp : ∀ os ∈ ([[]] : List Shard), os = [] := by
    intro os h
    simpa using h
  obtain ⟨a1, a2, a3, a4, a5⟩ :=
    sweepLoopRun_allEmpty ⟨some (), "p", "users", 1, [[]], 0, none⟩ [] hemp
  have hcl := sweepTxClosure_abort ⟨some (), "p", "users", 1, [[]], 0, none⟩ [] a2 a3
  obtain ⟨n1, n2, n3, n4, n5, n6, n7⟩ :=
    sweepNextBatch_opened ⟨some (), "p", "users", 1, [[]], 0, none⟩ [] rfl
  obtain ⟨l1, l2, l3⟩ := sweepLoopRun_log ⟨some (), "p", "users", 1, [[]], 0, none⟩ []
  refine ⟨by rw [hcl], by rw [n2]; simp only [hcl]; exact a2,
    by rw [n3]; simp only [hcl]; exact a3, ?_⟩
  rw [n4, hcl]
  show (sweepLoopRun _ _).log.sweepCalls + 1 = 1
  rw [l1]

/-- C3 (amended): `expiration.events` and `expiration.objects` are
emitted exactly when the batch deleted at least one event (respectively
object) — hence only on committing batches — while `expiration.sweep` is
emitted once on every batch on an open table, aborting batches
included. -/
theorem sweep_counter_emissions (t : TableM) (bound : Bytes)
    (hopen : t.opened = true) :
    (SweepNextBatch t bound).log.sweepCalls = 1 ∧
    (SweepNextBatch t bound).log.eventsCalls =
      (if 0 < (SweepNextBatch t bound).events then 1 else 0) ∧
    (SweepNextBatch t bound).log.objectsCalls =
      (if 0 < (SweepNextBatch t bound).objects then 1 else 0) := by
  obtain ⟨n1, n2, n3, n4, n5, n6, n7⟩ := sweepNextBatch_opened t bound hopen
  obtain ⟨l1, l2, l3⟩ := sweepLoopRun_log t bound
  by_cases hc : (sweepLoopRun t bound).events = 0 ∧ (sweepLoopRun t bound).objects = 0
  · have hcl := sweepTxClosure_abort t bound hc.1 hc.2
    refine ⟨?_, ?_, ?_⟩
    · rw [n4, hcl]
      show (sweepLoopRun t bound).log.sweepCalls + 1 = 1
      rw [l1]
    · rw [n4, n2, hcl]
      show (sweepLoopRun t bound).log.eventsCalls =
        (if 0 < (sweepLoopRun t bound).events then 1 else 0)
      rw [l2, hc.1]
      simp
    · rw [n4, n3, hcl]
      show (sweepLoopRun t bound).log.objectsCalls =
        (if 0 < (sweepLoopRun t bound).objects then 1 else 0)
      rw [l3, hc.2]
      simp
  · obtain ⟨c1, c2, c3, c4, c5, c6, c7, c8, c9, c10, c11⟩ :=
      sweepTxClosure_commit t bound hc
    refine ⟨?_, ?_, ?_⟩
    · rw [n4, c8, l1]
    · rw [n4, n2, c9, c3, l2]
      simp
    · rw [n4, n3, c10, c4, l3]
      simp

/-- Witness for C3 (amended) at a concrete open table. -/
theorem sweep_counter_emissions_witness :
    (SweepNextBatch ⟨some (), "p", "users", 2, [[], []], 0, none⟩ [5]).log.sweepCalls = 1 ∧
    (SweepNextBatch ⟨some (), "p", "users", 2, [[], []], 0, none⟩ [5]).log.eventsCalls =
      (if 0 < (SweepNextBatch ⟨some (), "p", "users", 2, [[], []], 0, none⟩ [5]).events
       then 1 else 0) ∧
    (SweepNextBatch ⟨some (), "p", "users", 2, [[], []], 0, none⟩ [5]).log.objectsCalls =
      (if 0 < (SweepNextBatch ⟨some (), "p", "users", 2, [[], []], 0, none⟩ [5]).objects
       then 1 else 0) :=
  sweep_counter_emissions ⟨some (), "p", "users", 2, [[], []], 0, none⟩ [5] rfl

/-- C4: a sweep iteration whose shard cursor is exhausted advances
`currentShard` to `(currentShard + 1) mod shardCount`, resets
`currentObject`, emits one `expiration.rollover` counter, and still
counts as one swept object; consequently a batch over entirely empty
shards terminates with `swept = SweepBatchSize` (and that many
rollovers), and `currentShard` always stays below the shard count. -/
theorem sweep_rollover_behavior :
    (∀ (n : Nat) (bound : Bytes) (s : SweepTxState),
        cursorKey (s.shards.getD s.currentShard []) s.currentObject = none →
        sweepIter n bound s =
          { s with currentShard := (s.currentShard + 1) % n, currentObject := none,
                   swept := s.swept + 1,
                   log := { s.log with rolloverCalls := s.log.rolloverCalls + 1 } }) ∧
    (∀ (t : TableM) (bound : Bytes), t.opened = true → (∀ os ∈ t.shards, os = []) →
        (SweepNextBatch t bound).swept = SweepBatchSize ∧
        (SweepNextBatch t bound).log.rolloverCalls = SweepBatchSize) ∧
    (∀ (t : TableM) (bound : Bytes), 0 < t.shardCount → t.currentShard < t.shardCount →
        (SweepNextBatch t bound).table.currentShard < t.shardCount) := by
  refine ⟨?_, ?_, ?_⟩
  · intro n bound s h
    simp only [sweepIter]
    rw [h]
  · intro t bound hopen hemp
    obtain ⟨a1, a2, a3, a4, a5⟩ := sweepLoopRun_allEmpty t bound hemp
    have hcl := sweepTxClosure_abort t bound a2 a3
    obtain ⟨n1, n2, n3, n4, n5, n6, n7⟩ := sweepNextBatch_opened t bound hopen
    constructor
    · rw [n1, hcl]
      exact a1
    · rw [n4, hcl]
      show (sweepLoopRun t bound).log.rolloverCalls = SweepBatchSize
      exact a5
  · intro t bound hn hcs
    have hlt : (sweepLoopRun t bound).currentShard < t.shardCount := by
      unfold sweepLoopRun
      exact sweepGo_currentShard_lt t.shardCount bound SweepBatchSize _ hn hcs
    by_cases hopen : t.opened = true
    · obtain ⟨n1, n2, n3, n4, n5, n6, n7⟩ := sweepNextBatch_opened t bound hopen
      rw [n5]
      by_cases hc : (sweepLoopRun t bound).events = 0 ∧ (sweepLoopRun t bound).objects = 0
      · rw [sweepTxClosure_abort t bound hc.1 hc.2]
        exact hlt
      · rw [(sweepTxClosure_commit t bound hc).2.2.2.2.2.1]
        exact hlt
    · have hfalse : t.opened = false := by
        revert hopen
        cases h : t.opened <;> simp
      simp only [SweepNextBatch, hfalse]
      simpa using hcs

/-- Witness for C4: the rollover shape at a concrete mid-loop state, and
the empty-shard batch and the shard-range bound at a concrete open
two-shard table. -/
theorem sweep_rollover_behavior_witness :
    (sweepIter 3 [1] ⟨[[]], 0, none, 5, 0, 0, ⟨0, 0, 0, 0⟩⟩ =
      ⟨[[]], 1 % 3, none, 6, 0, 0, ⟨1, 0, 0, 0⟩⟩) ∧
    ((SweepNextBatch ⟨some (), "p", "users", 2, [[], []], 0, none⟩ [3]).swept =
        SweepBatchSize ∧
      (SweepNextBatch ⟨some (), "p", "users", 2, [[], []], 0, none⟩ [3]).log.rolloverCalls =
        SweepBatchSize) ∧
    (SweepNextBatch ⟨some (), "p", "users", 2, [[], []], 0, none⟩ [3]).table.currentShard < 2 :=
  ⟨sweep_rollover_behavior.1 3 [1] ⟨[[]], 0, none, 5, 0, 0, ⟨0, 0, 0, 0⟩⟩ rfl,
    sweep_rollover_behavior.2.1 ⟨some (), "p", "users", 2, [[], []], 0, none⟩ [3] rfl
      (by decide),
    sweep_rollover_behavior.2.2 ⟨some (), "p", "users", 2, [[], []], 0, none⟩ [3]
      (by decide) (by decide)⟩

/-- Dropping the satisfying front of a list leaves nothing for
`takeWhile` to take. -/
lemma takeWhile_dropWhile_nil {α : Type} (p : α → Bool) (l : List α) :
    (l.dropWhile p).takeWhile p = [] := by
  induction l with
  | nil => rfl
  | cons a l ih =>
      rw [List.dropWhile_cons]
      by_cases h : p a = true
      · rw [if_pos h]
        exact ih
      · rw [if_neg h, List.takeWhile_cons, if_neg h]

/-- A sweep iteration preserves the per-object bound on expired events:
the processed object's expired front is removed entirely, every other
object is untouched or deleted. -/
lemma sweepIter_expired_bound (n : Nat) (bound : Bytes) (M : Nat) (s : SweepTxState)
    (h : ∀ os ∈ s.shards, ∀ o ∈ os,
      (o.events.takeWhile (fun e => bytesLt e bound)).length ≤ M) :
    ∀ os ∈ (sweepIter n bound s).shards, ∀ o ∈ os,
      (o.events.takeWhile (fun e => bytesLt e bound)).length ≤ M := by
  simp only [sweepIter]
  split
  · exact h
  · rename_i k heq
    intro os2 hos2 o ho
    rcases List.mem_or_eq_of_mem_set hos2 with hmem | hq
    · exact h _ hmem o ho
    · subst hq
      split at ho
      · have hmem := List.mem_of_mem_filter ho
        obtain ⟨os0, hos0, hoin⟩ := mem_of_mem_getD hmem
        exact h _ hos0 o hoin
      · obtain ⟨o0, ho0, rfl⟩ := List.mem_map.mp ho
        by_cases hk : (o0.key == k) = true
        · rw [if_pos hk]
          simp only [takeWhile_dropWhile_nil]
          exact Nat.zero_le M
        · rw [if_neg hk]
          obtain ⟨os0, hos0, hoin⟩ := mem_of_mem_getD ho0
          exact h _ hos0 o0 hoin

/-- One iteration adds at most `M` deleted events when every object in
the store holds at most `M` expired events. -/
lemma sweepIter_events_le (n : Nat) (bound : Bytes) (M : Nat) (s : SweepTxState)
    (h : ∀ os ∈ s.shards, ∀ o ∈ os,
      (o.events.takeWhile (fun e => bytesLt e bound)).length ≤ M) :
    (sweepIter n bound s).events ≤ s.events + M := by
  simp only [sweepIter]
  split
  · dsimp only
    omega
  · rename_i k heq
    have hdel : (((((s.shards.getD s.currentShard []).find?
        (fun o => o.key == k)).getD ⟨k, []⟩).events.takeWhile
          (fun e => bytesLt e bound)).length) ≤ M := by
      rcases hfind : (s.shards.getD s.currentShard []).find? (fun o => o.key == k)
        with _ | o0
      · rw [hfind]
        simp
      · rw [hfind]
        have hmem := List.mem_of_find?_eq_some hfind
        obtain ⟨os0, hos0, hoin⟩ := mem_of_mem_getD hmem
        exact h _ hos0 o0 hoin
    dsimp only
    omega

/-- The loop's deleted-event count stays below `SweepBatchSize + M`:
the loop enters an iteration only while `events < SweepBatchSize`, and
one iteration adds at most the expired events of a single object. -/
lemma sweepGo_events_le (n : Nat) (bound : Bytes) (M : Nat) (fuel : Nat)
    (s : SweepTxState)
    (hs : ∀ os ∈ s.shards, ∀ o ∈ os,
      (o.events.takeWhile (fun e => bytesLt e bound)).length ≤ M)
    (he : s.events ≤ SweepBatchSize - 1 + M) :
    (sweepGo n bound fuel s).events ≤ SweepBatchSize - 1 + M := by
  induction fuel generalizing s with
  | zero => exact he
  | succ f ih =>
      rw [sweepGo]
      by_cases hlt : s.events < SweepBatchSize
      · rw [if_pos hlt]
        refine ih (sweepIter n bound s) (sweepIter_expired_bound n bound M s hs) ?_
        have h1 := sweepIter_events_le n bound M s hs
        have h2 : SweepBatchSize = 1000 := rfl
        omega
      · rw [if_neg hlt]
        exact he

/-- The loop runs at most `fuel` iterations, each adding one to
`swept`. -/
lemma sweepGo_swept_le (n : Nat) (bound : Bytes) (fuel : Nat) (s : SweepTxState) :
    (sweepGo n bound fuel s).swept ≤ s.swept + fuel := by
  induction fuel generalizing s with
  | zero => exact Nat.le_refl s.swept
  | succ f ih =>
      rw [sweepGo]
      by_cases hlt : s.events < SweepBatchSize
      · rw [if_pos hlt]
        have h1 := ih (sweepIter n bound s)
        have h2 := sweepIter_swept n bound s
        omega
      · rw [if_neg hlt]
        omega

/-- The counters the closure returns are the loop's counters, whichever
branch the empty-batch check takes. -/
lemma sweepTxClosure_counts (t : TableM) (bound : Bytes) :
    (sweepTxClosure t bound).1.swept = (sweepLoopRun t bound).swept ∧
    (sweepTxClosure t bound).1.events = (sweepLoopRun t bound).events ∧
    (sweepTxClosure t bound).1.objects = (sweepLoopRun t bound).objects := by
  by_cases hc : (sweepLoopRun t bound).events = 0 ∧ (sweepLoopRun t bound).objects = 0
  · rw [sweepTxClosure_abort t bound hc.1 hc.2]
    exact ⟨rfl, rfl, rfl⟩
  · obtain ⟨c1, c2, c3, c4, c5⟩ := sweepTxClosure_commit t bound hc
    exact ⟨c2, c3, c4⟩

/-- C1 (amended): a single `SweepNextBatch` call sweeps at most
`SweepBatchSize` objects, and the loop re-checks the deleted-event count
only between objects, so with every object holding at most `M` expired
events the batch deletes at most `SweepBatchSize - 1 + M` events.  The
claim's bound of `SweepBatchSize` alone fails when one object holds more
than `SweepBatchSize` expired events. -/
theorem sweep_batch_work_bound (t : TableM) (bound : Bytes) (M : Nat)
    (hM : ∀ os ∈ t.shards, ∀ o ∈ os,
      (o.events.takeWhile (fun e => bytesLt e bound)).length ≤ M) :
    (SweepNextBatch t bound).swept ≤ SweepBatchSize ∧
    (SweepNextBatch t bound).events ≤ SweepBatchSize - 1 + M := by
  by_cases hopen : t.opened = true
  · obtain ⟨n1, n2, n3, n4, n5, n6, n7⟩ := sweepNextBatch_opened t bound hopen
    obtain ⟨k1, k2, k3⟩ := sweepTxClosure_counts t bound
    have hswept : (sweepLoopRun t bound).swept ≤ SweepBatchSize := by
      unfold sweepLoopRun
      have h0 := sweepGo_swept_le t.shardCount bound SweepBatchSize
        ⟨t.shards, t.currentShard, t.currentObject, 0, 0, 0, StatsdLog.empty⟩
      simpa using h0
    have hevents : (sweepLoopRun t bound).events ≤ SweepBatchSize - 1 + M := by
      unfold sweepLoopRun
      refine sweepGo_events_le t.shardCount bound M SweepBatchSize
        ⟨t.shards, t.currentShard, t.currentObject, 0, 0, 0, StatsdLog.empty⟩ hM ?_
      show 0 ≤ SweepBatchSize - 1 + M
      exact Nat.zero_le _
    constructor
    · rw [n1, k1]
      exact hswept
    · rw [n2, k2]
      exact hevents
  · have hfalse : t.opened = false := by
      revert hopen
      cases h : t.opened <;> simp
    simp only [SweepNextBatch, hfalse]
    simp

/-- Witness for C1 (amended) at a concrete table: one object with two
expired events, `M = 2`. -/
theorem sweep_batch_work_bound_witness :
    (SweepNextBatch ⟨some (), "p", "users", 1, [[⟨[0], [[1], [2]]⟩]], 0, none⟩
        [9]).swept ≤ SweepBatchSize ∧
    (SweepNextBatch ⟨some (), "p", "users", 1, [[⟨[0], [[1], [2]]⟩]], 0, none⟩
        [9]).events ≤ SweepBatchSize - 1 + 2 :=
  sweep_batch_work_bound ⟨some (), "p", "users", 1, [[⟨[0], [[1], [2]]⟩]], 0, none⟩
    [9] 2 (by decide)

set_option maxRecDepth 100000 in
/-- C1 as stated is false: the inner per-object deletion loop (table.go
lines 140-143) never consults the batch bound, so a single object
holding 1001 expired events makes one `SweepNextBatch` call delete 1001
events — more than `SweepBatchSize`. -/
theorem sweep_batch_events_exceed_counterexample :
    SweepBatchSize <
      (SweepNextBatch
        ⟨some (), "p", "users", 1,
          [[⟨[0], (List.range 1001).map (fun i => [i / 256, i % 256])⟩]], 0, none⟩
        [16]).events := by
  decide

/-! ## Codec lemmas -/

/-- `natToBE` always yields exactly `w` bytes. -/
lemma natToBE_length (w n : Nat) : (natToBE w n).length = w := by
  induction w generalizing n with
  | zero => rfl
  | succ k ih =>
      rw [natToBE, List.length_append, ih]
      rfl

/-- Folding the big-endian digits of `n` onto an accumulator. -/
lemma foldl_natToBE (w n acc : Nat) (h : n < 256 ^ w) :
    (natToBE w n).foldl (fun a b => a * 256 + b) acc = acc * 256 ^ w + n := by
  induction w generalizing n acc with
  | zero =>
      rw [natToBE]
      simp at h
      simp [h]
  | succ k ih =>
      rw [natToBE, List.foldl_append]
      have hdiv : n / 256 < 256 ^ k := by
        rw [Nat.div_lt_iff_lt_mul (by norm_num)]
        calc n < 256 ^ (k + 1) := h
        _ = 256 ^ k * 256 := by ring
      rw [ih (n / 256) acc hdiv]
      show (acc * 256 ^ k + n / 256) * 256 + n % 256 = acc * 256 ^ (k + 1) + n
      have hmod := Nat.div_add_mod n 256
      ring_nf
      omega

/-- Big-endian encode/decode of a `Nat` below `256 ^ w` round-trips. -/
lemma beToNat_natToBE (w n : Nat) (h : n < 256 ^ w) :
    beToNat (natToBE w n) = n := by
  unfold beToNat
  rw [foldl_natToBE w n 0 h]
  omega

/-- `readBytes` splits off an exact-length front. -/
lemma readBytes_append (k : Nat) (xs rest : List Nat) (h : xs.length = k) :
    readBytes k (xs ++ rest) = some (xs, rest) := by
  subst h
  unfold readBytes
  rw [if_pos (by simp), List.take_left, List.drop_left]

/-- The 8-byte two's-complement `int64` encoding round-trips on the
`int64` range. -/
lemma bytesToInt64_int64ToBytes (v : Int) (h1 : -(2 ^ 63) ≤ v) (h2 : v < 2 ^ 63) :
    bytesToInt64 (int64ToBytes v) = v := by
  have hnn : (0 : Int) ≤ v % (2 ^ 64) := Int.emod_nonneg v (by norm_num)
  have hlt : v % (2 ^ 64) < 2 ^ 64 := Int.emod_lt_of_pos v (by norm_num)
  have hb : (v % (2 ^ 64 : Int)).toNat < 256 ^ 8 := by
    have h256 : (256 : Nat) ^ 8 = 2 ^ 64 := by norm_num
    omega
  simp only [bytesToInt64, int64ToBytes]
  rw [beToNat_natToBE 8 _ hb]
  have hval : v % (2 ^ 64) = if 0 ≤ v then v else v + 2 ^ 64 := by
    split
    · rw [Int.emod_eq_of_lt (by omega) (by omega)]
    · rw [show v % (2 ^ 64) = (v + 2 ^ 64) % (2 ^ 64) by omega]
      rw [Int.emod_eq_of_lt (by omega) (by omega)]
  split <;> omega

/-- `int64ToBytes` always yields 8 bytes. -/
lemma int64ToBytes_length (v : Int) : (int64ToBytes v).length = 8 := by
  unfold int64ToBytes
  exact natToBE_length 8 _

/-- One encoded character decodes back. -/
lemma decodeChars_cons (c : Char) (count : Nat) (l : List Nat) :
    decodeChars (count + 1) (encodeChar c ++ l) =
      (decodeChars count l).map (fun p => (c :: p.1, p.2)) := by
  have hc : c.toNat < 256 ^ 4 := by
    have h := c.val.toNat_lt
    have h2 : (256 : Nat) ^ 4 = 2 ^ 32 := by norm_num
    simp only [Char.toNat]
    omega
  have hchar : Char.ofNat (beToNat (encodeChar c)) = c := by
    unfold encodeChar
    rw [beToNat_natToBE 4 _ hc, Char.ofNat_toNat]
  rw [decodeChars, readBytes_append 4 (encodeChar c) l (natToBE_length 4 _)]
  cases hd : decodeChars count l with
  | none => simp [hd]
  | some p => simp [hd, hchar]

/-- A whole encoded character list decodes back, leaving the rest. -/
lemma decodeChars_append (cs : List Char) (rest : List Nat) :
    decodeChars cs.length ((cs.map encodeChar).flatten ++ rest) = some (cs, rest) := by
  induction cs with
  | nil => rfl
  | cons c cs ih =>
      rw [List.map_cons, List.flatten_cons, List.append_assoc, List.length_cons,
        decodeChars_cons, ih]
      rfl

/-- One well-formed encoded value decodes to its promotion, leaving the
rest. -/
lemma decodeValue_encodeValue (v : RawDataValue) (h : v.wf) (rest : List Nat) :
    decodeValue (encodeValue v ++ rest) = some (promote v, rest) := by
  cases v with
  | int8 w =>
      obtain ⟨ha, hb⟩ := h
      show decodeValue (2 :: (int64ToBytes w ++ rest)) = some (DataValue.int w, rest)
      rw [decodeValue, readBytes_append 8 _ _ (int64ToBytes_length w)]
      simp [bytesToInt64_int64ToBytes w (by omega) (by omega)]
  | int16 w =>
      obtain ⟨ha, hb⟩ := h
      show decodeValue (2 :: (int64ToBytes w ++ rest)) = some (DataValue.int w, rest)
      rw [decodeValue, readBytes_append 8 _ _ (int64ToBytes_length w)]
      simp [bytesToInt64_int64ToBytes w (by omega) (by omega)]
  | int32 w =>
      obtain ⟨ha, hb⟩ := h
      show decodeValue (2 :: (int64ToBytes w ++ rest)) = some (DataValue.int w, rest)
      rw [decodeValue, readBytes_append 8 _ _ (int64ToBytes_length w)]
      simp [bytesToInt64_int64ToBytes w (by omega) (by omega)]
  | int64 w =>
      obtain ⟨ha, hb⟩ := h
      show decodeValue (2 :: (int64ToBytes w ++ rest)) = some (DataValue.int w, rest)
      rw [decodeValue, readBytes_append 8 _ _ (int64ToBytes_length w)]
      simp [bytesToInt64_int64ToBytes w (by omega) (by omega)]
  | float64 bits =>
      have hb : bits < 256 ^ 8 := by
        have h2 : (256 : Nat) ^ 8 = 2 ^ 64 := by norm_num
        have h3 : bits < 2 ^ 64 := h
        omega
      show decodeValue (3 :: (natToBE 8 bits ++ rest)) = some (DataValue.float bits, rest)
      rw [decodeValue, readBytes_append 8 _ _ (natToBE_length 8 _)]
      simp [beToNat_natToBE 8 bits hb]
  | boolv b =>
      cases b <;> rfl
  | strv s =>
      have hlen : s.data.length < 256 ^ 8 := by
        have h2 : (256 : Nat) ^ 8 = 2 ^ 64 := by norm_num
        have h3 : s.data.length < 2 ^ 64 := h
        omega
      show decodeValue
          (4 :: ((natToBE 8 s.data.length ++ (s.data.map encodeChar).flatten) ++ rest)) =
        some (DataValue.str s, rest)
      rw [decodeValue, List.append_assoc,
        readBytes_append 8 _ _ (natToBE_length 8 _)]
      simp only [beToNat_natToBE 8 _ hlen, decodeChars_append]
  | null => rfl

/-- A well-formed encoded entry list decodes to the promoted entries. -/
lemma decodeEntries_append (data : List (Int × RawDataValue)) (rest : List Nat)
    (h : ∀ kv ∈ data, (-(2 ^ 63 : Int) ≤ kv.1 ∧ kv.1 < 2 ^ 63) ∧ kv.2.wf) :
    decodeEntries data.length
        ((data.map (fun kv => int64ToBytes kv.1 ++ encodeValue kv.2)).flatten ++ rest) =
      some (data.map (fun kv => (kv.1, promote kv.2)), rest) := by
  induction data with
  | nil => rfl
  | cons kv data ih =>
      obtain ⟨⟨hk1, hk2⟩, hv⟩ := h kv (List.mem_cons_self kv data)
      have hrest : ∀ kv2 ∈ data, (-(2 ^ 63 : Int) ≤ kv2.1 ∧ kv2.1 < 2 ^ 63) ∧ kv2.2.wf :=
        fun kv2 hm => h kv2 (List.mem_cons_of_mem kv hm)
      rw [List.map_cons, List.flatten_cons, List.length_cons, List.append_assoc,
        List.append_assoc, decodeEntries,
        readBytes_append 8 _ _ (int64ToBytes_length kv.1)]
      simp only [decodeValue_encodeValue kv.2 hv, ih hrest,
        bytesToInt64_int64ToBytes kv.1 hk1 hk2, List.map_cons]

/-! ## Claim theorem: the event codec -/

/-- C5: for every raw event whose data map holds well-formed values of
the supported kinds, decoding the bytes produced by encoding it yields
the normalized event — the same timestamp, and the same data map with
every value promoted to its canonical runtime type. -/
theorem event_codec_roundtrip (e : rawEvent) (h : e.wf) :
    unmarshalEvent e.marshal = some e.normalize := by
  obtain ⟨h1, h2, h3, h4⟩ := h
  have hdlen : e.data.length < 256 ^ 8 := by
    have hp : (256 : Nat) ^ 8 = 2 ^ 64 := by norm_num
    omega
  have hdd : decodeData (natToBE 8 e.data.length ++
      ((e.data.map (fun kv => int64ToBytes kv.1 ++ encodeValue kv.2)).flatten ++ [])) =
      some (e.data.map (fun kv => (kv.1, promote kv.2)), []) := by
    show (match readBytes 8 (natToBE 8 e.data.length ++
        ((e.data.map (fun kv => int64ToBytes kv.1 ++ encodeValue kv.2)).flatten ++ [])) with
      | none => none
      | some (cb, r) => decodeEntries (beToNat cb) r) =
        some (e.data.map (fun kv => (kv.1, promote kv.2)), [])
    rw [readBytes_append 8 _ _ (natToBE_length 8 _)]
    simp only [beToNat_natToBE 8 _ hdlen, decodeEntries_append e.data [] h4]
  show unmarshalEvent (int64ToBytes e.timestamp ++ encodeData e.data) = some e.normalize
  rw [unmarshalEvent, readBytes_append 8 _ _ (int64ToBytes_length _)]
  rw [show encodeData e.data =
      natToBE 8 e.data.length ++
        ((e.data.map (fun kv => int64ToBytes kv.1 ++ encodeValue kv.2)).flatten ++ []) from by
    rw [List.append_nil]
    rfl]
  simp only [hdd, bytesToInt64_int64ToBytes e.timestamp h1 h2]
  rfl

/-- Witness for C5 at a concrete event exercising every supported kind,
including an `int32` that widens to `int64`. -/
theorem event_codec_roundtrip_witness :
    unmarshalEvent
        (rawEvent.marshal
          ⟨1000000,
            [(1, RawDataValue.int32 7), (2, RawDataValue.strv "click"),
             (3, RawDataValue.boolv true), (-1, RawDataValue.float64 4638387860618067575),
             (4, RawDataValue.null)]⟩) =
      some
        (rawEvent.normalize
          ⟨1000000,
            [(1, RawDataValue.int32 7), (2, RawDataValue.strv "click"),
             (3, RawDataValue.boolv true), (-1, RawDataValue.float64 4638387860618067575),
             (4, RawDataValue.null)]⟩) :=
  event_codec_roundtrip
    ⟨1000000,
      [(1, RawDataValue.int32 7), (2, RawDataValue.strv "click"),
       (3, RawDataValue.boolv true), (-1, RawDataValue.float64 4638387860618067575),
       (4, RawDataValue.null)]⟩
    (by constructor
        · decide
        · constructor
          · decide
          · constructor
            · decide
            · decide)

/-! ## Claim theorems: schema, sharding, telemetry, lifecycle -/

/-- C6: decoding the meta document produced by encoding a table schema
restores the schema structurally — the four scalar fields and both
property indexes — under the schema's own map invariants: the name index
keys its properties by their names, and the ID index holds the same
properties keyed by their IDs. -/
theorem meta_roundtrip (t : TableSchema)
    (hname : ∀ kv ∈ t.properties, kv.1 = kv.2.name)
    (hid : t.propertiesByID = t.properties.map (fun kv => (kv.2.id, kv.2))) :
    TableSchema.unmarshal (TableSchema.marshal t) = t := by
  obtain ⟨nm, sc, mp, mt, props, ids⟩ := t
  dsimp only at hname hid
  have hprops : (props.map (fun kv => kv.2)).map (fun p => (p.name, p)) = props := by
    rw [List.map_map]
    calc props.map ((fun p => (p.name, p)) ∘ fun kv => kv.2)
        = props.map id := by
          refine List.map_congr_left ?_
          intro kv hm
          have hn := hname kv hm
          show (kv.2.name, kv.2) = kv
          rw [← hn]
      _ = props := List.map_id props
  have hids : (props.map (fun kv => kv.2)).map (fun p => (p.id, p)) = ids := by
    rw [List.map_map, hid]
    rfl
  show TableSchema.mk nm sc mp mt
      ((props.map (fun kv => kv.2)).map (fun p => (p.name, p)))
      ((props.map (fun kv => kv.2)).map (fun p => (p.id, p))) =
    TableSchema.mk nm sc mp mt props ids
  rw [hprops, hids]

/-- Witness for C6 at a concrete two-property schema. -/
theorem meta_roundtrip_witness :
    TableSchema.unmarshal
        (TableSchema.marshal
          ⟨"events", 4, 2, 1,
            [("action", ⟨1, "action", DataType.factor, false⟩),
             ("count", ⟨2, "count", DataType.integer, false⟩)],
            [(1, ⟨1, "action", DataType.factor, false⟩),
             (2, ⟨2, "count", DataType.integer, false⟩)]⟩) =
      ⟨"events", 4, 2, 1,
        [("action", ⟨1, "action", DataType.factor, false⟩),
         ("count", ⟨2, "count", DataType.integer, false⟩)],
        [(1, ⟨1, "action", DataType.factor, false⟩),
         (2, ⟨2, "count", DataType.integer, false⟩)]⟩ :=
  meta_roundtrip
    ⟨"events", 4, 2, 1,
      [("action", ⟨1, "action", DataType.factor, false⟩),
       ("count", ⟨2, "count", DataType.integer, false⟩)],
      [(1, ⟨1, "action", DataType.factor, false⟩),
       (2, ⟨2, "count", DataType.integer, false⟩)]⟩
    (by decide) (by decide)

/-- C7: `shardIndex` is a deterministic function of the object ID and
the table's `shardCount` alone — two tables agreeing on `shardCount`
(whatever their other fields) assign every ID the same shard — and the
result is a valid shard in `[0, shardCount)`. -/
theorem shard_index_stable (t1 t2 : TableM) (id : String)
    (hc : t1.shardCount = t2.shardCount) (hpos : 0 < t1.shardCount) :
    t1.shardIndex id = t2.shardIndex id ∧ t1.shardIndex id < t1.shardCount := by
  unfold TableM.shardIndex
  rw [hc]
  exact ⟨rfl, by rw [← hc]; exact Nat.mod_lt _ hpos⟩

/-- Witness for C7: two tables sharing only `shardCount = 4`. -/
theorem shard_index_stable_witness :
    TableM.shardIndex ⟨some (), "a", "t1", 4, [[], [], [], []], 0, none⟩ "user-1" =
      TableM.shardIndex ⟨none, "b", "t2", 4, [], 3, some [1]⟩ "user-1" ∧
    TableM.shardIndex ⟨some (), "a", "t1", 4, [[], [], [], []], 0, none⟩ "user-1" < 4 :=
  shard_index_stable ⟨some (), "a", "t1", 4, [[], [], [], []], 0, none⟩
    ⟨none, "b", "t2", 4, [], 3, some [1]⟩ "user-1" rfl (by decide)

/-- C8: every `Update` call passes the transaction outcome through
unchanged, emits the delta of the fresh bolt stats snapshot against the
cached one — for a rolled-back transaction exactly as for a committed
one — and replaces the cached snapshot with the fresh one. -/
theorem update_emits_stats_delta (t : TableTele) (txErr : Option String)
    (fresh : BoltStats) :
    t.Update txErr fresh =
      (txErr,
        { t with ddTagsCache := some (t.ddTagsCache.getD ["table:" ++ t.name]),
                 boltStats := fresh },
        ddEmitList (fresh.sub t.boltStats)
          (t.ddTagsCache.getD ["table:" ++ t.name])) ∧
    (t.Update txErr fresh).2.2 = (t.Update none fresh).2.2 := by
  cases h : t.ddTagsCache with
  | none => exact ⟨by simp [TableTele.Update, TableTele.ddEmitStats, TableTele.ddTags, h], rfl⟩
  | some tags => exact ⟨by simp [TableTele.Update, TableTele.ddEmitStats, TableTele.ddTags, h], rfl⟩

/-- C9: opening a not-yet-open table queries the database with the fixed
1-second acquisition timeout (`DBOpenTimeout` in nanoseconds); when the
acquisition times out the open fails with the wrapped `TableBusy` error,
and the outcome depends on the environment only through that one call. -/
theorem open_timeout_is_table_busy (t : TableM)
    (env env' : String → Nat → BoltOpenResult) (hdb : t.db = none) :
    DBOpenTimeout = 1000000000 ∧
    (env t.path DBOpenTimeout = BoltOpenResult.timeout →
      t.openTable env = Except.error (OpenError.tableBusy "table open: timeout")) ∧
    (env t.path DBOpenTimeout = env' t.path DBOpenTimeout →
      t.openTable env = t.openTable env') := by
  refine ⟨rfl, ?_, ?_⟩
  · intro htimeout
    unfold TableM.openTable
    rw [hdb, htimeout]
    rfl
  · intro hagree
    unfold TableM.openTable
    rw [hdb, hagree]

/-- Witness for C9: a concrete closed table against an
always-timing-out bolt environment. -/
theorem open_timeout_is_table_busy_witness :
    DBOpenTimeout = 1000000000 ∧
    ((fun (_ : String) (_ : Nat) => BoltOpenResult.timeout) "/tmp/t" DBOpenTimeout =
        BoltOpenResult.timeout →
      TableM.openTable ⟨none, "/tmp/t", "t", 1, [[]], 0, none⟩
          (fun _ _ => BoltOpenResult.timeout) =
        Except.error (OpenError.tableBusy "table open: timeout")) ∧
    ((fun (_ : String) (_ : Nat) => BoltOpenResult.timeout) "/tmp/t" DBOpenTimeout =
        (fun (_ : String) (_ : Nat) => BoltOpenResult.timeout) "/tmp/t" DBOpenTimeout →
      TableM.openTable ⟨none, "/tmp/t", "t", 1, [[]], 0, none⟩
          (fun _ _ => BoltOpenResult.timeout) =
        TableM.openTable ⟨none, "/tmp/t", "t", 1, [[]], 0, none⟩
          (fun _ _ => BoltOpenResult.timeout)) :=
  open_timeout_is_table_busy ⟨none, "/tmp/t", "t", 1, [[]], 0, none⟩
    (fun _ _ => BoltOpenResult.timeout) (fun _ _ => BoltOpenResult.timeout) rfl

end SkyDB
